import Mathlib

/-
Verification development for the binance-listing-bot trading service.

Modelling conventions:
- JavaScript numbers are modelled as rationals (the traced code paths use
  only +, -, *, /, min, floor and comparisons on finite values);
- JavaScript Sets are modelled as duplicate-free lists in insertion order;
- fallible operations are modelled with Except/Option;
- external collaborators (exchange HTTP responses, the database, the order
  gateway's network results) are modelled as explicit oracle inputs that the
  embedded control flow consumes.
-/

/-! ## Risk and sizing engine (src/services/trading/risk.js) -/

/-- Configuration slice read by `RiskManager`'s constructor
(`config.trading.risk.*`, `config.trading.baseOrderSize`,
`config.trading.maxOrderSize` in src/config/index.js). -/
structure RiskConfig where
  maxAccountRiskPercent : ℚ
  maxPositionRiskPercent : ℚ
  useOfBalance : ℚ
  baseOrderSize : ℚ
  maxOrderSize : ℚ
  deriving DecidableEq, Repr

/-- The default values from src/config/index.js: 0.02, 0.01, 0.95, 10, 100. -/
def defaultRiskConfig : RiskConfig :=
  { maxAccountRiskPercent := 2/100
    maxPositionRiskPercent := 1/100
    useOfBalance := 95/100
    baseOrderSize := 10
    maxOrderSize := 100 }

/-- `RiskManager.calculateOrderSize` (risk.js lines 21-62), the try-block
arithmetic.  On rational inputs none of these operations can fail; the
logging call that can make the catch branch fire is modelled separately in
`calculateOrderSizeWithLog`.  `Math.min` of three arguments is associated
to the left. -/
def calculateOrderSize (cfg : RiskConfig) (balance : ℚ) (activePositionsCount : ℕ) : ℚ :=
  let orderSize := cfg.baseOrderSize
  let availableBalance := balance * cfg.useOfBalance
  let maxRiskAmount := availableBalance * cfg.maxAccountRiskPercent
  let maxPositionSize := availableBalance * cfg.maxPositionRiskPercent
  let orderSize :=
    min (min orderSize maxPositionSize) (maxRiskAmount / ((activePositionsCount : ℚ) + 1))
  let orderSize := min orderSize cfg.maxOrderSize
  let orderSize := min orderSize availableBalance
  orderSize

/-- `RiskManager.calculateOrderSize` with the `logger.debug` call made
explicit: the try block computes the size, then logs; if the log step (the
only fallible statement in the block) throws, the catch branch returns the
configured base order size unchanged (risk.js lines 58-61). -/
def calculateOrderSizeWithLog (cfg : RiskConfig) (balance : ℚ) (activePositionsCount : ℕ)
    (logDebug : Except String Unit) : ℚ :=
  match logDebug.bind (fun _ => Except.ok (calculateOrderSize cfg balance activePositionsCount)) with
  | Except.ok v => v
  | Except.error _ => cfg.baseOrderSize

/-! ## Position calculator (src/services/trading/calculator.js) -/

/-- Result record of `PositionCalculator.calculatePnL`. -/
structure PnLResult where
  amount : ℚ
  percentage : ℚ
  deriving DecidableEq, Repr

/-- `PositionCalculator.calculatePnL` (calculator.js lines 1107-1115 of the
concatenated source): amount is `(currentPrice - entryPrice) * quantity`,
percentage is `((currentPrice / entryPrice) - 1) * 100`. -/
def calculatePnL (entryPrice currentPrice quantity : ℚ) : PnLResult :=
  { amount := (currentPrice - entryPrice) * quantity
    percentage := (currentPrice / entryPrice - 1) * 100 }

/-- Exchange symbol filters as consumed by `PositionCalculator.calculateQuantity`
(`filterType` of LOT_SIZE or MIN_NOTIONAL; every other filter type is ignored
by the code). -/
inductive SymbolFilter where
  | lotSize (minQty maxQty stepSize : ℚ)
  | minNotionalF (minNotional : ℚ)
  | otherFilter (tag : String)
  deriving DecidableEq, Repr

/-- First LOT_SIZE filter in the list (`filters.find(f => f.filterType === 'LOT_SIZE')`). -/
def findLotSize : List SymbolFilter → Option (ℚ × ℚ × ℚ)
  | [] => none
  | SymbolFilter.lotSize mn mx st :: _ => some (mn, mx, st)
  | _ :: fs => findLotSize fs

/-- First MIN_NOTIONAL filter in the list. -/
def findMinNotional : List SymbolFilter → Option ℚ
  | [] => none
  | SymbolFilter.minNotionalF m :: _ => some m
  | _ :: fs => findMinNotional fs

/-- `PositionCalculator.roundToStepSize`: floor the quantity to a multiple of
`stepSize`; a zero step returns the quantity unchanged.  (The source also
computes an unused `precision` local.) -/
def roundToStepSize (quantity stepSize : ℚ) : ℚ :=
  if stepSize = 0 then quantity
  else (⌊quantity / stepSize⌋ : ℤ) * stepSize

/-- `PositionCalculator.calculateQuantity` (calculator.js lines 1006-1057):
start from `orderSize / price`; raise to `minQty` when below it, cap at
`maxQty`, floor to the step; then if the notional `quantity * price` is below
`minNotional`, replace the quantity by `minNotional / price` (re-floored to
the step when a LOT_SIZE filter exists).  A missing `filters` property in the
source behaves exactly like the empty filter list, so `filters` is a plain
list here.  The catch branch of the source (returning 0) is unreachable on
rational inputs. -/
def calculateQuantity (orderSize price : ℚ) (filters : List SymbolFilter) : ℚ :=
  let quantity := orderSize / price
  let q1 :=
    match findLotSize filters with
    | some (minQty, maxQty, stepSize) =>
      let q := if quantity < minQty then minQty else quantity
      let q := if q > maxQty then maxQty else q
      roundToStepSize q stepSize
    | none => quantity
  match findMinNotional filters with
  | some minNotional =>
    if q1 * price < minNotional then
      let q2 := minNotional / price
      match findLotSize filters with
      | some (_, _, stepSize) => roundToStepSize q2 stepSize
      | none => q2
    else q1
  | none => q1

/-! ### Claims C3, C8, C9, C10 -/

/-- C3: for every balance `B` and every open-position count `N`, the sizing
engine's result never exceeds the fixed per-order maximum, `B` times the
position-risk fraction, or `B` times the balance-utilization fraction
(configured values: maxOrderSize 100, maxPositionRiskPercent 1/100,
useOfBalance 95/100). -/
theorem calculateOrderSize_le_caps (balance : ℚ) (activePositionsCount : ℕ) :
    calculateOrderSize defaultRiskConfig balance activePositionsCount ≤
      min defaultRiskConfig.maxOrderSize
        (min (balance * defaultRiskConfig.maxPositionRiskPercent)
          (balance * defaultRiskConfig.useOfBalance)) := by
  have h0 : (0:ℚ) < (activePositionsCount : ℚ) + 1 := by positivity
  unfold calculateOrderSize defaultRiskConfig
  simp only [le_min_iff]
  refine ⟨?_, ?_, ?_⟩
  · calc min (min (min (min (10:ℚ) (balance * (95/100) * (1/100)))
          (balance * (95/100) * (2/100) / ((activePositionsCount : ℚ) + 1))) 100)
          (balance * (95/100))
        ≤ min (min (min (10:ℚ) (balance * (95/100) * (1/100)))
          (balance * (95/100) * (2/100) / ((activePositionsCount : ℚ) + 1))) 100 :=
          min_le_left _ _
      _ ≤ 100 := min_le_right _ _
  · rcases le_total 0 balance with hb | hb
    · have h1 : min (min (min (min (10:ℚ) (balance * (95/100) * (1/100)))
          (balance * (95/100) * (2/100) / ((activePositionsCount : ℚ) + 1))) 100)
          (balance * (95/100)) ≤ balance * (95/100) * (1/100) := by
        calc min (min (min (min (10:ℚ) (balance * (95/100) * (1/100)))
              (balance * (95/100) * (2/100) / ((activePositionsCount : ℚ) + 1))) 100)
              (balance * (95/100))
            ≤ min (min (min (10:ℚ) (balance * (95/100) * (1/100)))
              (balance * (95/100) * (2/100) / ((activePositionsCount : ℚ) + 1))) 100 :=
              min_le_left _ _
          _ ≤ min (min (10:ℚ) (balance * (95/100) * (1/100)))
              (balance * (95/100) * (2/100) / ((activePositionsCount : ℚ) + 1)) :=
              min_le_left _ _
          _ ≤ min (10:ℚ) (balance * (95/100) * (1/100)) := min_le_left _ _
          _ ≤ balance * (95/100) * (1/100) := min_le_right _ _
      have h2 : balance * (95/100) * (1/100) ≤ balance * (1/100) := by nlinarith
      linarith
    · have h1 : min (min (min (min (10:ℚ) (balance * (95/100) * (1/100)))
          (balance * (95/100) * (2/100) / ((activePositionsCount : ℚ) + 1))) 100)
          (balance * (95/100)) ≤ balance * (95/100) := min_le_right _ _
      have h2 : balance * (95/100) ≤ balance * (1/100) := by nlinarith
      linarith
  · exact min_le_right _ _

/-- C8: if the internal computation of `calculateOrderSize` throws (modelled by
the fallible logging step ending in an error), the catch branch returns the
unmodified configured base order amount; when nothing throws the function
returns the normal capped size, so a sizing failure never propagates to the
caller. -/
theorem calculateOrderSize_error_fallback (cfg : RiskConfig) (balance : ℚ)
    (activePositionsCount : ℕ) :
    (∀ e : String,
      calculateOrderSizeWithLog cfg balance activePositionsCount (Except.error e) =
        cfg.baseOrderSize) ∧
    calculateOrderSizeWithLog cfg balance activePositionsCount (Except.ok ()) =
      calculateOrderSize cfg balance activePositionsCount := by
  constructor
  · intro e; rfl
  · rfl

/-- C9: realized P&L is `(exitPrice - entryPrice) * quantity` and the
percentage is the relative price change; for entry 100, exit 105, quantity 2
the result is exactly pnl 10 and pnlPercent 5, hence within tolerance 1e-9. -/
theorem calculatePnL_spec :
    (calculatePnL 100 105 2 = { amount := 10, percentage := 5 } ∧
      |(calculatePnL 100 105 2).amount - 10| ≤ 1/1000000000 ∧
      |(calculatePnL 100 105 2).percentage - 5| ≤ 1/1000000000) ∧
    ∀ entryPrice currentPrice quantity : ℚ,
      (calculatePnL entryPrice currentPrice quantity).amount =
        (currentPrice - entryPrice) * quantity ∧
      (entryPrice ≠ 0 →
        (calculatePnL entryPrice currentPrice quantity).percentage =
          (currentPrice - entryPrice) / entryPrice * 100) := by
  refine ⟨⟨?_, ?_, ?_⟩, ?_⟩
  · simp only [calculatePnL, PnLResult.mk.injEq]
    norm_num
  · simp only [calculatePnL]
    norm_num
  · simp only [calculatePnL]
    norm_num
  · intro e c q
    refine ⟨rfl, fun he => ?_⟩
    unfold calculatePnL
    field_simp

/-- Closed instance of `calculatePnL_spec` at entry 100, exit 105, quantity 2,
discharging the nonzero-entry-price hypothesis there. -/
theorem calculatePnL_spec_witness :
    (100:ℚ) ≠ 0 ∧ (calculatePnL 100 105 2).percentage = (105 - 100) / 100 * 100 :=
  ⟨by norm_num, ((calculatePnL_spec.2 100 105 2).2 (by norm_num))⟩

/-- C10: the quantity calculator can return a quantity whose notional strictly
exceeds the requested order size: the raw quantity `orderSize / price` is
raised to `minQty` when below the lot minimum, and raised to
`minNotional / price` when the notional is below the symbol minimum.  The
closed conjuncts exhibit both branches at orderSize 5, price 1. -/
theorem calculateQuantity_notional_exceeds :
    (calculateQuantity 5 1 [SymbolFilter.lotSize 10 1000 1] = 10 ∧
      calculateQuantity 5 1 [SymbolFilter.lotSize 10 1000 1] * 1 > 5) ∧
    (calculateQuantity 5 1 [SymbolFilter.minNotionalF 10] = 10 ∧
      calculateQuantity 5 1 [SymbolFilter.minNotionalF 10] * 1 > 5) ∧
    (∀ orderSize price minQty maxQty stepSize : ℚ,
      orderSize / price < minQty → minQty ≤ maxQty →
      calculateQuantity orderSize price [SymbolFilter.lotSize minQty maxQty stepSize] =
        roundToStepSize minQty stepSize) ∧
    (∀ orderSize price minNotional : ℚ,
      (orderSize / price) * price < minNotional →
      calculateQuantity orderSize price [SymbolFilter.minNotionalF minNotional] =
        minNotional / price) := by
  have hlot : calculateQuantity 5 1 [SymbolFilter.lotSize 10 1000 1] = 10 := by
    norm_num [calculateQuantity, findLotSize, findMinNotional, roundToStepSize]
  have hnot : calculateQuantity 5 1 [SymbolFilter.minNotionalF 10] = 10 := by
    norm_num [calculateQuantity, findLotSize, findMinNotional, roundToStepSize]
  refine ⟨⟨hlot, by rw [hlot]; norm_num⟩, ⟨hnot, by rw [hnot]; norm_num⟩, ?_, ?_⟩
  · intro os p mn mx st hlt hle
    simp only [calculateQuantity, findLotSize, findMinNotional, if_pos hlt,
      gt_iff_lt, if_neg (not_lt.mpr hle)]
  · intro os p m hlt
    simp only [calculateQuantity, findLotSize, findMinNotional, if_pos hlt]

/-- Closed instance of `calculateQuantity_notional_exceeds` discharging the
hypotheses of its universally quantified conjuncts at concrete inputs. -/
theorem calculateQuantity_notional_exceeds_witness :
    ((5:ℚ) / 1 < 10 ∧ (10:ℚ) ≤ 1000 ∧
      calculateQuantity 5 1 [SymbolFilter.lotSize 10 1000 1] = roundToStepSize 10 1) ∧
    ((5:ℚ) / 1 * 1 < 10 ∧
      calculateQuantity 5 1 [SymbolFilter.minNotionalF 10] = 10 / 1) :=
  ⟨⟨by norm_num, by norm_num,
      calculateQuantity_notional_exceeds.2.2.1 5 1 10 1000 1 (by norm_num) (by norm_num)⟩,
    ⟨by norm_num,
      calculateQuantity_notional_exceeds.2.2.2 5 1 10 (by norm_num)⟩⟩

/-! ## Mainnet safety client (src/services/binance/mainnet-client.js) -/

/-- The mainnet client's `safetyFeatures` fields read by order validation
(`maxOrderValue` is `config.trading.maxOrderSize`; `dailyLossLimit` is ten
times the base order size). -/
structure SafetyFeatures where
  maxOrderValue : ℚ
  dailyLossLimit : ℚ
  deriving DecidableEq, Repr

/-- The mainnet client's `dailyStats` accumulator.  `resetDailyStatsIfNeeded`
is date-based; a state is modelled as already reset for the current day. -/
structure DailyStats where
  ordersPlaced : ℕ
  totalVolume : ℚ
  totalLoss : ℚ
  totalProfit : ℚ
  deriving DecidableEq, Repr

/-- Order parameters destructured by `validateOrderSafety`.  A `none` price
models an absent `price` field (allowed for market orders). -/
structure OrderParams where
  symbol : String
  side : String
  type : String
  quantity : ℚ
  price : Option ℚ
  deriving DecidableEq, Repr

/-- The `orderValue` local of `validateOrderSafety`: market orders use
`quantity * (price || 0)`; other orders use `quantity * price`, which in the
source is NaN when the price is absent — modelled as `none` (every JS
comparison against NaN is false, matched below). -/
def orderValue (p : OrderParams) : Option ℚ :=
  if p.type = "MARKET" then some (p.quantity * p.price.getD 0)
  else p.price.map fun pr => p.quantity * pr

/-- The two error conditions `validateOrderSafety` can record.  (The function
also collects warnings, which never affect control flow and are omitted.) -/
inductive SafetyError where
  | orderValueExceedsLimit
  | dailyLossLimitReached
  deriving DecidableEq, Repr

/-- Return value of `validateOrderSafety`. -/
structure SafetyValidation where
  isValid : Bool
  errors : List SafetyError
  deriving DecidableEq, Repr

/-- `MainnetClient.validateOrderSafety` (mainnet-client.js lines 111-156):
records an error when the order value exceeds `maxOrderValue`, and an error
when the recorded cumulative daily loss has reached `dailyLossLimit`; either
error clears `isValid`. -/
def validateOrderSafety (sf : SafetyFeatures) (stats : DailyStats) (p : OrderParams) :
    SafetyValidation :=
  let sizeExceeded : Bool :=
    match orderValue p with
    | some v => decide (v > sf.maxOrderValue)
    | none => false
  let v1 : SafetyValidation :=
    if sizeExceeded then ⟨false, [SafetyError.orderValueExceedsLimit]⟩ else ⟨true, []⟩
  if stats.totalLoss ≥ sf.dailyLossLimit then
    ⟨false, v1.errors ++ [SafetyError.dailyLossLimitReached]⟩
  else v1

/-- Control-flow outcome of `MainnetClient.createOrder`: blocked by the safety
check (thrown error, no exchange call), simulated (simulation mode), or
dispatched to the exchange via `super.createOrder`. -/
inductive CreateOrderOutcome where
  | blocked (errors : List SafetyError)
  | simulated
  | dispatched
  deriving DecidableEq, Repr

/-- `MainnetClient.createOrder` (mainnet-client.js lines 161-219), up to the
exchange call: audit logging has no effect on the outcome; an invalid safety
check throws before anything is sent; simulation mode short-circuits;
otherwise the order params are forwarded to the exchange. -/
def mainnetCreateOrder (sf : SafetyFeatures) (stats : DailyStats) (p : OrderParams)
    (simulationMode : Bool) : CreateOrderOutcome :=
  let check := validateOrderSafety sf stats p
  if check.isValid = false then CreateOrderOutcome.blocked check.errors
  else if simulationMode then CreateOrderOutcome.simulated
  else CreateOrderOutcome.dispatched

/-! ### Claim C1 -/

/-- C1 counterexample: real-money profile with daily-loss ceiling 100,
cumulative recorded daily loss 95, and a candidate market order risking 10
(quantity 10 at price 1).  The claim says the order is blocked with a
daily-loss-ceiling error; the code dispatches it to the exchange, because the
gate compares only the already-recorded loss (95 < 100) and ignores the
candidate order's risk, even though 95 + 10 exceeds the ceiling. -/
theorem mainnetCreateOrder_ignores_candidate_risk :
    mainnetCreateOrder ⟨100, 100⟩ ⟨0, 0, 95, 0⟩ ⟨"NEWUSDT", "BUY", "MARKET", 10, some 1⟩ false =
        CreateOrderOutcome.dispatched ∧
      (95 : ℚ) + 10 > (100 : ℚ) := by
  constructor
  · simp only [mainnetCreateOrder, validateOrderSafety, orderValue]
    norm_num
  · norm_num

/-- C1 (amended): `createOrder` on the mainnet client raises a blocking
daily-loss-ceiling error — and then never reaches the exchange call — exactly
when the cumulative recorded daily loss has already reached the ceiling; the
candidate order's own risk is not taken into account. -/
theorem mainnetCreateOrder_blocks_iff_loss_reached (sf : SafetyFeatures)
    (stats : DailyStats) (p : OrderParams) (simulationMode : Bool) :
    (∃ errs, mainnetCreateOrder sf stats p simulationMode = CreateOrderOutcome.blocked errs ∧
        SafetyError.dailyLossLimitReached ∈ errs) ↔
      sf.dailyLossLimit ≤ stats.totalLoss := by
  unfold mainnetCreateOrder validateOrderSafety
  simp only [ge_iff_le]
  rcases hb : (match orderValue p with
      | some v => decide (v > sf.maxOrderValue)
      | none => false : Bool) with _ | _ <;>
    cases simulationMode <;>
      by_cases hd : sf.dailyLossLimit ≤ stats.totalLoss <;>
        (first
          | rw [if_pos hd]
          | rw [if_neg hd]) <;>
        simp [hd]

/-- Closed instance of `mainnetCreateOrder_blocks_iff_loss_reached`: with
ceiling 100 and recorded loss 100 the blocking daily-loss error fires. -/
theorem mainnetCreateOrder_blocks_iff_loss_reached_witness :
    ∃ errs, mainnetCreateOrder ⟨100, 100⟩ ⟨0, 0, 100, 0⟩
        ⟨"AAAUSDT", "BUY", "MARKET", 10, some 1⟩ false = CreateOrderOutcome.blocked errs ∧
      SafetyError.dailyLossLimitReached ∈ errs :=
  (mainnetCreateOrder_blocks_iff_loss_reached ⟨100, 100⟩ ⟨0, 0, 100, 0⟩
    ⟨"AAAUSDT", "BUY", "MARKET", 10, some 1⟩ false).mpr (by norm_num)

/-! ## Protection attachment (src/services/trading/index.js, setTakeProfitStopLoss) -/

/-- Result shape of `OrderManager.placeLimitSellOrder` / `placeStopLossOrder`:
these catch every exception internally and return `success: false` instead of
throwing (orders.js), so they are modelled as plain records.  A failed
attempt carries no `orderId`. -/
structure OrderAttemptRes where
  success : Bool
  orderId : Option ℕ
  deriving DecidableEq, Repr

/-- Result shape of `OrderManager.placeOCOOrder`: `success` plus the list of
exchange order ids in `orders` (also never throws). -/
structure OCORes where
  success : Bool
  orderIds : List ℕ
  deriving DecidableEq, Repr

/-- Oracle inputs of one `setTakeProfitStopLoss` run: the `useOCO`
configuration flag, and the results the order gateway would return for the
OCO attempt and for the two independent protection orders. -/
structure TPSLInput where
  useOCO : Bool
  ocoRes : OCORes
  tpRes : OrderAttemptRes
  slRes : OrderAttemptRes
  deriving DecidableEq, Repr

/-- Observable outcome of `TradingService.setTakeProfitStopLoss`: which
fallback orders were attempted, the `tpSlResult.success` field of the
returned object, the protection order ids written into the position, whether
`database.updatePosition` was reached, and the top-level `success` field of
the returned object. -/
structure TPSLReturn where
  attemptedTP : Bool
  attemptedSL : Bool
  tpSlSuccess : Bool
  tpOrderId : Option ℕ
  slOrderId : Option ℕ
  positionUpdateSaved : Bool
  returnedSuccess : Bool
  deriving DecidableEq, Repr

/-- `TradingService.setTakeProfitStopLoss` (trading/index.js lines 529-600):
try the OCO order when `useOCO` is set; if there is no OCO result or it was
unsuccessful, place the take-profit and stop-loss orders independently (both
are started together via `Promise.all`) and record
`success: tpResult.success && slResult.success` in the composite result; then
unconditionally write the TP/SL data into the position, persist it with
`updatePosition`, and return `{ success: true, position, tpSlResult }`.  The
catch branch is unreachable here because the order-gateway calls never
throw. -/
def setTakeProfitStopLoss (inp : TPSLInput) : TPSLReturn :=
  let ocoResult : Option OCORes := if inp.useOCO then some inp.ocoRes else none
  let useFallback : Bool :=
    match ocoResult with
    | none => true
    | some r => r.success = false
  if useFallback then
    { attemptedTP := true
      attemptedSL := true
      tpSlSuccess := inp.tpRes.success && inp.slRes.success
      tpOrderId := inp.tpRes.orderId
      slOrderId := inp.slRes.orderId
      positionUpdateSaved := true
      returnedSuccess := true }
  else
    { attemptedTP := false
      attemptedSL := false
      tpSlSuccess := inp.ocoRes.success
      tpOrderId := inp.ocoRes.orderIds.get? 0
      slOrderId := inp.ocoRes.orderIds.get? 1
      positionUpdateSaved := true
      returnedSuccess := true }

/-! ### Claim C2 -/

/-- C2 counterexample: OCO placement fails, the take-profit leg succeeds and
the stop-loss leg fails.  Both independent orders are attempted (as the claim
says), but `setTakeProfitStopLoss` still returns a result whose top-level
`success` field is `true` and still persists the half-protected position —
contradicting the claim that the result never indicates success when either
leg fails. -/
theorem setTakeProfitStopLoss_half_protected_case :
    setTakeProfitStopLoss ⟨true, ⟨false, []⟩, ⟨true, some 11⟩, ⟨false, none⟩⟩ =
      { attemptedTP := true
        attemptedSL := true
        tpSlSuccess := false
        tpOrderId := some 11
        slOrderId := none
        positionUpdateSaved := true
        returnedSuccess := true } := by
  rfl

/-- C2 (amended): whenever the atomic OCO attempt is skipped or fails, both
independent protection orders are attempted and the nested
`tpSlResult.success` flag is the conjunction of the two leg results; however
the method always returns top-level `success: true` and always persists the
position update, even when one leg failed. -/
theorem setTakeProfitStopLoss_fallback_reports_success (inp : TPSLInput)
    (h : inp.useOCO = false ∨ inp.ocoRes.success = false) :
    (setTakeProfitStopLoss inp).attemptedTP = true ∧
    (setTakeProfitStopLoss inp).attemptedSL = true ∧
    (setTakeProfitStopLoss inp).tpSlSuccess = (inp.tpRes.success && inp.slRes.success) ∧
    (setTakeProfitStopLoss inp).returnedSuccess = true ∧
    (setTakeProfitStopLoss inp).positionUpdateSaved = true := by
  unfold setTakeProfitStopLoss
  rcases h with h | h <;> simp only [h]
  · simp
  · rcases hu : inp.useOCO with _ | _ <;> simp [hu, h]

/-- Closed instance of `setTakeProfitStopLoss_fallback_reports_success` with
a failing OCO attempt, a succeeding take-profit leg and a failing stop-loss
leg. -/
theorem setTakeProfitStopLoss_fallback_reports_success_witness :
    (setTakeProfitStopLoss ⟨true, ⟨false, []⟩, ⟨true, some 7⟩, ⟨false, none⟩⟩).attemptedTP = true ∧
    (setTakeProfitStopLoss ⟨true, ⟨false, []⟩, ⟨true, some 7⟩, ⟨false, none⟩⟩).attemptedSL = true ∧
    (setTakeProfitStopLoss ⟨true, ⟨false, []⟩, ⟨true, some 7⟩, ⟨false, none⟩⟩).tpSlSuccess =
      ((true : Bool) && (false : Bool)) ∧
    (setTakeProfitStopLoss ⟨true, ⟨false, []⟩, ⟨true, some 7⟩, ⟨false, none⟩⟩).returnedSuccess = true ∧
    (setTakeProfitStopLoss ⟨true, ⟨false, []⟩, ⟨true, some 7⟩, ⟨false, none⟩⟩).positionUpdateSaved = true :=
  setTakeProfitStopLoss_fallback_reports_success ⟨true, ⟨false, []⟩, ⟨true, some 7⟩, ⟨false, none⟩⟩
    (Or.inr rfl)

/-! ## Exchange client weight budget (src/services/binance/client.js, checkRateLimit) -/

/-- The client's `weightUsage` record: rolling-window start in milliseconds,
accumulated weight, and the per-minute limit (constants.API_LIMITS:
WEIGHT_PER_MINUTE = 1200). -/
structure WeightUsage where
  lastReset : ℕ
  current : ℕ
  limit : ℕ
  deriving DecidableEq, Repr

/-- `BinanceClient.checkRateLimit` (client.js lines 1029-1049 of the
concatenated source) as a state transition: reset the counter when more than
60000 ms have passed since the window start; then, if dispatching would make
`current + weight` reach the limit, sleep until the window end (the returned
Bool records that the call was delayed), reset the counter at the wake time
`lastReset + 60000`, and only then add the weight; otherwise add the weight
immediately. -/
def checkRateLimit (w : WeightUsage) (now : ℕ) (weight : ℕ) : WeightUsage × Bool :=
  let w1 := if now - w.lastReset > 60000 then { w with current := 0, lastReset := now } else w
  if w1.current + weight ≥ w1.limit then
    ({ lastReset := w1.lastReset + 60000, current := weight, limit := w1.limit }, true)
  else
    ({ w1 with current := w1.current + weight }, false)

/-- Sequential composition of `checkRateLimit` over a list of requests, each
given as (wall-clock time, weight). -/
def runRequests (w : WeightUsage) (reqs : List (ℕ × ℕ)) : WeightUsage :=
  reqs.foldl (fun s r => (checkRateLimit s r.1 r.2).1) w

/-! ### Claim C4 -/

/-- C4: for every sequence of requests whose individual weights do not exceed
the window limit, the weight counter never exceeds the limit after any
request (the call is delayed until the window reset instead of dispatching
over budget); and in the concrete scenario with limit 1200, current weight
1195 and a next call of weight 10, the call is delayed until the window
resets and the counter restarts at exactly that call's weight. -/
theorem checkRateLimit_never_exceeds_limit (w : WeightUsage) (reqs : List (ℕ × ℕ))
    (hw : w.current ≤ w.limit) (hreqs : ∀ r ∈ reqs, r.2 ≤ w.limit) :
    (runRequests w reqs).current ≤ w.limit ∧
    (runRequests w reqs).limit = w.limit ∧
    checkRateLimit ⟨0, 1195, 1200⟩ 1000 10 = (⟨60000, 10, 1200⟩, true) := by
  have hstep_limit : ∀ (s : WeightUsage) (now weight : ℕ),
      ((checkRateLimit s now weight).1).limit = s.limit := by
    intro s now weight
    dsimp only [checkRateLimit]
    split <;> split <;> rfl
  have hstep_current : ∀ (s : WeightUsage) (now weight : ℕ),
      weight ≤ s.limit → s.current ≤ s.limit →
      ((checkRateLimit s now weight).1).current ≤ s.limit := by
    intro s now weight hwt hcur
    dsimp only [checkRateLimit]
    split <;> split <;> (simp_all; try omega)
  have main : ∀ (reqs : List (ℕ × ℕ)) (s : WeightUsage), s.current ≤ s.limit →
      (∀ r ∈ reqs, r.2 ≤ s.limit) →
      (runRequests s reqs).current ≤ s.limit ∧ (runRequests s reqs).limit = s.limit := by
    intro reqs
    induction reqs with
    | nil => intro s h _; exact ⟨h, rfl⟩
    | cons r rs ih =>
      intro s hcur hall
      have hr : r.2 ≤ s.limit := hall r (List.mem_cons_self r rs)
      have h1 := hstep_current s r.1 r.2 hr hcur
      have h2 := hstep_limit s r.1 r.2
      have hrest : ∀ q ∈ rs, q.2 ≤ ((checkRateLimit s r.1 r.2).1).limit := by
        intro q hq
        rw [h2]
        exact hall q (List.mem_cons_of_mem r hq)
      have := ih (checkRateLimit s r.1 r.2).1 (by rw [h2]; exact h1) hrest
      refine ⟨?_, ?_⟩
      · have hfold : runRequests s (r :: rs) = runRequests (checkRateLimit s r.1 r.2).1 rs := rfl
        rw [hfold, ← h2]
        exact this.1
      · have hfold : runRequests s (r :: rs) = runRequests (checkRateLimit s r.1 r.2).1 rs := rfl
        rw [hfold, this.2, h2]
  exact ⟨(main reqs w hw hreqs).1, (main reqs w hw hreqs).2, by decide⟩

/-- Closed instance of `checkRateLimit_never_exceeds_limit` on a concrete
request trace starting from a fresh window. -/
theorem checkRateLimit_never_exceeds_limit_witness :
    (runRequests ⟨0, 0, 1200⟩ [(10, 10), (20, 40), (70000, 1195), (70500, 10)]).current ≤ 1200 :=
  (checkRateLimit_never_exceeds_limit ⟨0, 0, 1200⟩ [(10, 10), (20, 40), (70000, 1195), (70500, 10)]
    (by decide) (by decide)).1

/-! ## Exchange client error handling and retry (src/services/binance/client.js) -/

/-- One scripted HTTP outcome for a dispatched request: a successful
response, an error response with an HTTP status code and a Retry-After
header value in seconds, or a network failure with no response. -/
inductive HttpResponse where
  | ok
  | status (code : ℕ) (retryAfterSec : ℕ)
  | network
  deriving DecidableEq, Repr

/-- Error classification produced by the response interceptor
(`setupErrorHandlers`): the 418 branch throws an IP-ban error; every other
error response is re-rejected with its status; network errors carry no
status. -/
inductive RequestError where
  | ipBanned
  | httpError (code : ℕ)
  | network
  deriving DecidableEq, Repr

/-- Trace of one (possibly compound) call: the outcome, the unconsumed rest
of the response script, the total milliseconds spent in explicit cooldown
waits, and the number of HTTP dispatches that hit the wire. -/
structure CallTrace where
  result : Except RequestError Unit
  remaining : List HttpResponse
  waitedMs : ℕ
  dispatches : ℕ
  deriving Repr

/-- One axios dispatch through the response interceptor of
`BinanceClient.setupErrorHandlers` (client.js lines 874-911): a 429 response
waits `retry-after * 1000` ms and then re-issues the same request (consuming
the next scripted response); a 418 response throws an IP-ban error; any
other error response or network failure is re-rejected to the caller.  An
exhausted script behaves like a network failure. -/
def interceptedCall : List HttpResponse → CallTrace
  | [] => ⟨Except.error RequestError.network, [], 0, 0⟩
  | HttpResponse.ok :: rest => ⟨Except.ok (), rest, 0, 1⟩
  | HttpResponse.status code retryAfterSec :: rest =>
    if code = 429 then
      let t := interceptedCall rest
      ⟨t.result, t.remaining, retryAfterSec * 1000 + t.waitedMs, t.dispatches + 1⟩
    else if code = 418 then ⟨Except.error RequestError.ipBanned, rest, 0, 1⟩
    else ⟨Except.error (RequestError.httpError code), rest, 0, 1⟩
  | HttpResponse.network :: rest => ⟨Except.error RequestError.network, rest, 0, 1⟩

/-- The `pRetry` wrapper around one request function (client.js
`publicRequest`/`privateRequest`, lines 949-1024): the attempt is re-run on
any thrown `Error` until the configured number of retries is exhausted
(p-retry aborts early only for `AbortError`/`TypeError`, which this code
never throws).  The exponential backoff delays do not affect the outcome and
are not tracked. -/
def pRetryRun (retriesLeft : ℕ) (script : List HttpResponse) : CallTrace :=
  match interceptedCall script, retriesLeft with
  | ⟨Except.ok _, rest, w, d⟩, _ => ⟨Except.ok (), rest, w, d⟩
  | ⟨Except.error e, rest, w, d⟩, 0 => ⟨Except.error e, rest, w, d⟩
  | ⟨Except.error _, rest, w, d⟩, Nat.succ n =>
    let t := pRetryRun n rest
    ⟨t.result, t.remaining, w + t.waitedMs, d + t.dispatches⟩

/-- `BinanceClient.publicRequest` retry shell: `pRetry` is configured with
`retries: config.binance.retry.maxAttempts` (default 3), so up to
`maxAttempts + 1` attempts run. -/
def publicRequestRun (maxAttempts : ℕ) (script : List HttpResponse) : CallTrace :=
  pRetryRun maxAttempts script

/-! ### Claim C7 -/

/-- C7 counterexample: a request that receives an HTTP 418 (IP-ban) response
followed by an OK response.  The claim says a 418 fails fatally and is never
retried; with the default retry budget of 3 the code dispatches the request
a second time after the 418 and the call even succeeds. -/
theorem ip_ban_response_retried_case :
    (publicRequestRun 3 [HttpResponse.status 418 0, HttpResponse.ok]).result = Except.ok () ∧
    (publicRequestRun 3 [HttpResponse.status 418 0, HttpResponse.ok]).dispatches = 2 := by
  constructor <;> rfl

/-- C7 (amended): a 429 response makes the interceptor wait exactly the
exchange-specified `Retry-After` cooldown and re-issue the request (which
then succeeds without consuming a retry); a 418 response throws an IP-ban
error, but the surrounding pRetry wrapper treats it like any other thrown
error and re-runs the whole request, so the 418 surfaces as fatal only after
the retry budget is exhausted. -/
theorem binance_retry_behavior :
    (∀ retryAfterSec : ℕ,
      publicRequestRun 3 [HttpResponse.status 429 retryAfterSec, HttpResponse.ok] =
        ⟨Except.ok (), [], retryAfterSec * 1000, 2⟩) ∧
    publicRequestRun 3 (List.replicate 4 (HttpResponse.status 418 0)) =
      ⟨Except.error RequestError.ipBanned, [], 0, 4⟩ ∧
    (∀ (n : ℕ) (script : List HttpResponse),
      (pRetryRun (n + 1) (HttpResponse.status 418 0 :: script)).result =
        (pRetryRun n script).result) := by
  refine ⟨?_, by rfl, ?_⟩
  · intro ra
    simp [publicRequestRun, pRetryRun, interceptedCall]
  · intro n script
    rfl

/-! ## Market stream monitor diff logic (websocket.js handleMiniTickerArray,
polling.js checkForNewListings) -/

/-- JS `String.prototype.endsWith`, evaluated on the underlying character
lists. -/
def symbolEndsWith (s suffix : String) : Bool :=
  suffix.data.isSuffixOf s.data

/-- JS `Set.prototype.add` on the insertion-ordered duplicate-free list
model. -/
def setAdd (s : List String) (x : String) : List String :=
  if x ∈ s then s else s ++ [x]

/-- Mini-ticker entry of the `!miniTicker@arr` stream (fields as read by
`handleMiniTickerArray`: symbol, close, volume, quote volume, price change,
price change percent). -/
structure MiniTicker where
  s : String
  c : ℚ
  v : ℚ
  q : ℚ
  p : ℚ
  P : ℚ
  deriving DecidableEq, Repr

/-- A `newListing` event payload (the wall-clock `detectedAt` timestamp is
omitted: it never influences control flow). -/
structure ListingEvent where
  symbol : String
  price : ℚ
  volume : ℚ
  quoteVolume : ℚ
  priceChange : ℚ
  priceChangePercent : ℚ
  deriving DecidableEq, Repr

/-- Accumulator of the ticker loop inside `handleMiniTickerArray`:
the `currentSymbols` set, the known-symbol set, and the events emitted so
far. -/
structure TickerScanState where
  currentSymbols : List String
  known : List String
  events : List ListingEvent
  deriving DecidableEq, Repr

/-- The `for (const ticker of tickers)` loop of
`WebSocketMonitor.handleMiniTickerArray` (websocket source lines 238-260):
skip symbols of a foreign quote asset; record every processed symbol in
`currentSymbols`; emit one `newListing` event for a symbol absent from the
known set and add it to the set. -/
def miniTickerScan (quote : String) : List MiniTicker → TickerScanState → TickerScanState
  | [], st => st
  | t :: ts, st =>
    if symbolEndsWith t.s quote = false then miniTickerScan quote ts st
    else if t.s ∈ st.known then
      miniTickerScan quote ts { st with currentSymbols := setAdd st.currentSymbols t.s }
    else
      miniTickerScan quote ts
        { currentSymbols := setAdd st.currentSymbols t.s
          known := setAdd st.known t.s
          events := st.events ++ [⟨t.s, t.c, t.v, t.q, t.p, t.P⟩] }

/-- Observable outcome of one `handleMiniTickerArray` call. -/
structure MiniTickerOutcome where
  known : List String
  events : List ListingEvent
  delisted : List String
  deriving DecidableEq, Repr

/-- `WebSocketMonitor.handleMiniTickerArray` (lines 238-268): run the ticker
loop, then delete every known symbol that did not occur in the update
(`delisted`) and emit a delisting notice for them. -/
def handleMiniTickerArray (quote : String) (known : List String) (tickers : List MiniTicker) :
    MiniTickerOutcome :=
  let st := miniTickerScan quote tickers ⟨[], known, []⟩
  let delisted := st.known.filter (fun s => decide (s ∉ st.currentSymbols))
  { known := st.known.filter (fun s => decide (s ∈ st.currentSymbols))
    events := st.events
    delisted := delisted }

/-- Sequential composition of push-path updates; collects all emitted
listing events. -/
def runMiniTickerUpdates (quote : String) (known : List String) :
    List (List MiniTicker) → List String × List ListingEvent
  | [] => (known, [])
  | u :: us =>
    let o := handleMiniTickerArray quote known u
    let rest := runMiniTickerUpdates quote o.known us
    (rest.1, o.events ++ rest.2)

/-- 24h ticker entry as read by `PollingMonitor.checkForNewListings`. -/
structure Ticker24h where
  symbol : String
  lastPrice : ℚ
  volume : ℚ
  quoteVolume : ℚ
  priceChange : ℚ
  priceChangePercent : ℚ
  deriving DecidableEq, Repr

/-- The ticker loop of `PollingMonitor.checkForNewListings` (polling.js lines
106-158): skip foreign quote assets; for an unknown symbol, add it to the
known set and emit one `newListing` event.  No delisting happens on this
path. -/
def pollingScan (quote : String) :
    List Ticker24h → List String → List ListingEvent → List String × List ListingEvent
  | [], known, events => (known, events)
  | t :: ts, known, events =>
    if symbolEndsWith t.symbol quote = false then pollingScan quote ts known events
    else if t.symbol ∈ known then pollingScan quote ts known events
    else
      pollingScan quote ts (setAdd known t.symbol)
        (events ++
          [⟨t.symbol, t.lastPrice, t.volume, t.quoteVolume, t.priceChange,
            t.priceChangePercent⟩])

/-- `PollingMonitor.checkForNewListings` on one snapshot. -/
def checkForNewListings (quote : String) (known : List String) (tickers : List Ticker24h) :
    List String × List ListingEvent :=
  pollingScan quote tickers known []

/-- Sequential composition of polling-path snapshots. -/
def runPollingUpdates (quote : String) (known : List String) :
    List (List Ticker24h) → List String × List ListingEvent
  | [] => (known, [])
  | u :: us =>
    let o := checkForNewListings quote known u
    let rest := runPollingUpdates quote o.1 us
    (rest.1, o.2 ++ rest.2)

/-- Number of listing events carrying a given symbol. -/
def eventCount (sym : String) (events : List ListingEvent) : ℕ :=
  (events.filter (fun e => decide (e.symbol = sym))).length

theorem mem_setAdd_iff (s : List String) (x y : String) :
    y ∈ setAdd s x ↔ y ∈ s ∨ y = x := by
  unfold setAdd
  split
  · rename_i hx
    constructor
    · exact fun h => Or.inl h
    · rintro (h | rfl)
      · exact h
      · exact hx
  · simp [List.mem_append]

theorem eventCount_append (sym : String) (a b : List ListingEvent) :
    eventCount sym (a ++ b) = eventCount sym a + eventCount sym b := by
  simp [eventCount, List.filter_append]

theorem miniTickerScan_known_mono (quote : String) (ts : List MiniTicker) :
    ∀ (st : TickerScanState) (x : String), x ∈ st.known →
      x ∈ (miniTickerScan quote ts st).known := by
  induction ts with
  | nil => intro st x h; exact h
  | cons t ts ih =>
    intro st x h
    unfold miniTickerScan
    split
    · exact ih st x h
    · split
      · exact ih _ x h
      · exact ih _ x ((mem_setAdd_iff st.known t.s x).mpr (Or.inl h))

theorem miniTickerScan_cur_mono (quote : String) (ts : List MiniTicker) :
    ∀ (st : TickerScanState) (x : String), x ∈ st.currentSymbols →
      x ∈ (miniTickerScan quote ts st).currentSymbols := by
  induction ts with
  | nil => intro st x h; exact h
  | cons t ts ih =>
    intro st x h
    unfold miniTickerScan
    split
    · exact ih st x h
    · split
      · exact ih _ x ((mem_setAdd_iff st.currentSymbols t.s x).mpr (Or.inl h))
      · exact ih _ x ((mem_setAdd_iff st.currentSymbols t.s x).mpr (Or.inl h))

theorem miniTickerScan_cur_of_mem (quote sym : String)
    (hq : symbolEndsWith sym quote = true) (ts : List MiniTicker) :
    ∀ st : TickerScanState, (∃ t ∈ ts, t.s = sym) →
      sym ∈ (miniTickerScan quote ts st).currentSymbols := by
  induction ts with
  | nil => rintro st ⟨t0, ht0, _⟩; exact absurd ht0 (List.not_mem_nil t0)
  | cons t ts ih =>
    rintro st ⟨t0, ht0, hts0⟩
    unfold miniTickerScan
    by_cases he : symbolEndsWith t.s quote = false
    · rw [if_pos he]
      have hne : t.s ≠ sym := by
        intro h; rw [h, hq] at he; exact Bool.true_eq_false.mp he
      apply ih st
      rcases List.mem_cons.mp ht0 with rfl | h0
      · exact absurd hts0 hne
      · exact ⟨t0, h0, hts0⟩
    · rw [if_neg he]
      by_cases hts : t.s = sym
      · have hmem : sym ∈ setAdd st.currentSymbols t.s :=
          (mem_setAdd_iff _ _ _).mpr (Or.inr hts.symm)
        by_cases hk : t.s ∈ st.known
        · rw [if_pos hk]
          exact miniTickerScan_cur_mono quote ts _ sym hmem
        · rw [if_neg hk]
          exact miniTickerScan_cur_mono quote ts _ sym hmem
      · have h0 : ∃ t1 ∈ ts, t1.s = sym := by
          rcases List.mem_cons.mp ht0 with rfl | h1
          · exact absurd hts0 hts
          · exact ⟨t0, h1, hts0⟩
        by_cases hk : t.s ∈ st.known
        · rw [if_pos hk]
          exact ih _ h0
        · rw [if_neg hk]
          exact ih _ h0

theorem miniTickerScan_known_no_event (quote sym : String) (ts : List MiniTicker) :
    ∀ st : TickerScanState, sym ∈ st.known →
      eventCount sym (miniTickerScan quote ts st).events = eventCount sym st.events := by
  induction ts with
  | nil => intro st _; rfl
  | cons t ts ih =>
    intro st h
    unfold miniTickerScan
    split
    · exact ih st h
    · split
      · exact ih _ h
      · rename_i hne
        have hts : t.s ≠ sym := fun he => hne (he ▸ h)
        rw [ih _ ((mem_setAdd_iff st.known t.s sym).mpr (Or.inl h))]
        rw [eventCount_append]
        simp [eventCount, hts]

theorem miniTickerScan_new_event (quote sym : String)
    (hq : symbolEndsWith sym quote = true) (ts : List MiniTicker) :
    ∀ st : TickerScanState, sym ∉ st.known → (∃ t ∈ ts, t.s = sym) →
      eventCount sym (miniTickerScan quote ts st).events = eventCount sym st.events + 1 ∧
      sym ∈ (miniTickerScan quote ts st).known := by
  induction ts with
  | nil => rintro st _ ⟨t0, ht0, _⟩; exact absurd ht0 (List.not_mem_nil t0)
  | cons t ts ih =>
    rintro st hn ⟨t0, ht0, hts0⟩
    unfold miniTickerScan
    by_cases he : symbolEndsWith t.s quote = false
    · rw [if_pos he]
      have hne : t.s ≠ sym := by
        intro h; rw [h, hq] at he; exact Bool.true_eq_false.mp he
      apply ih st hn
      rcases List.mem_cons.mp ht0 with rfl | h0
      · exact absurd hts0 hne
      · exact ⟨t0, h0, hts0⟩
    · rw [if_neg he]
      by_cases hk : t.s ∈ st.known
      · rw [if_pos hk]
        have hne : t.s ≠ sym := fun h => hn (h ▸ hk)
        have h0 : ∃ t1 ∈ ts, t1.s = sym := by
          rcases List.mem_cons.mp ht0 with rfl | h1
          · exact absurd hts0 hne
          · exact ⟨t0, h1, hts0⟩
        exact ih { st with currentSymbols := setAdd st.currentSymbols t.s } hn h0
      · rw [if_neg hk]
        by_cases hts : t.s = sym
        · subst hts
          have hmem : t.s ∈ setAdd st.known t.s := (mem_setAdd_iff _ _ _).mpr (Or.inr rfl)
          constructor
          · rw [miniTickerScan_known_no_event quote t.s ts _ hmem]
            rw [eventCount_append]
            simp [eventCount]
          · exact miniTickerScan_known_mono quote ts _ t.s hmem
        · have hn' : sym ∉ setAdd st.known t.s := by
            rw [mem_setAdd_iff]
            rintro (h | h)
            · exact hn h
            · exact hts h.symm
          have h0 : ∃ t1 ∈ ts, t1.s = sym := by
            rcases List.mem_cons.mp ht0 with rfl | h1
            · exact absurd hts0 hts
            · exact ⟨t0, h1, hts0⟩
          have hrec := ih
            { currentSymbols := setAdd st.currentSymbols t.s
              known := setAdd st.known t.s
              events := st.events ++ [⟨t.s, t.c, t.v, t.q, t.p, t.P⟩] } hn' h0
          refine ⟨?_, hrec.2⟩
          rw [hrec.1, eventCount_append]
          simp [eventCount, hts]

theorem handleMiniTicker_new (quote sym : String) (known : List String) (u : List MiniTicker)
    (hq : symbolEndsWith sym quote = true) (hn : sym ∉ known) (hu : ∃ t ∈ u, t.s = sym) :
    eventCount sym (handleMiniTickerArray quote known u).events = 1 ∧
    sym ∈ (handleMiniTickerArray quote known u).known := by
  have h5 := miniTickerScan_new_event quote sym hq u ⟨[], known, []⟩ hn hu
  have hcur := miniTickerScan_cur_of_mem quote sym hq u ⟨[], known, []⟩ hu
  constructor
  · simpa [handleMiniTickerArray, eventCount] using h5.1
  · simp only [handleMiniTickerArray, List.mem_filter, decide_eq_true_eq]
    exact ⟨h5.2, hcur⟩

theorem handleMiniTicker_known (quote sym : String) (known : List String)
    (u : List MiniTicker) (hq : symbolEndsWith sym quote = true) (hk : sym ∈ known)
    (hu : ∃ t ∈ u, t.s = sym) :
    eventCount sym (handleMiniTickerArray quote known u).events = 0 ∧
    sym ∈ (handleMiniTickerArray quote known u).known := by
  have h4 := miniTickerScan_known_no_event quote sym u ⟨[], known, []⟩ hk
  have hmono := miniTickerScan_known_mono quote u ⟨[], known, []⟩ sym hk
  have hcur := miniTickerScan_cur_of_mem quote sym hq u ⟨[], known, []⟩ hu
  constructor
  · simpa [handleMiniTickerArray, eventCount] using h4
  · simp only [handleMiniTickerArray, List.mem_filter, decide_eq_true_eq]
    exact ⟨hmono, hcur⟩

theorem runMiniTicker_known_seq (quote sym : String)
    (hq : symbolEndsWith sym quote = true) (us : List (List MiniTicker)) :
    ∀ known : List String, sym ∈ known → (∀ u ∈ us, ∃ t ∈ u, t.s = sym) →
      eventCount sym (runMiniTickerUpdates quote known us).2 = 0 ∧
      sym ∈ (runMiniTickerUpdates quote known us).1 := by
  induction us with
  | nil => intro known hk _; exact ⟨rfl, hk⟩
  | cons u us ih =>
    intro known hk hall
    have h1 := handleMiniTicker_known quote sym known u hq hk (hall u (List.mem_cons_self u us))
    have h2 := ih (handleMiniTickerArray quote known u).known h1.2
      (fun v hv => hall v (List.mem_cons_of_mem u hv))
    constructor
    · simp only [runMiniTickerUpdates, eventCount_append, h1.1, h2.1]
    · simpa only [runMiniTickerUpdates] using h2.2

theorem runPolling_known_scan (quote sym : String) (ts : List Ticker24h) :
    ∀ (known : List String) (events : List ListingEvent), sym ∈ known →
      eventCount sym (pollingScan quote ts known events).2 = eventCount sym events ∧
      sym ∈ (pollingScan quote ts known events).1 := by
  induction ts with
  | nil => intro known events hk; exact ⟨rfl, hk⟩
  | cons t ts ih =>
    intro known events hk
    unfold pollingScan
    split
    · exact ih known events hk
    · split
      · exact ih known events hk
      · rename_i hne
        have hts : t.symbol ≠ sym := fun he => hne (he ▸ hk)
        have := ih (setAdd known t.symbol)
          (events ++
            [⟨t.symbol, t.lastPrice, t.volume, t.quoteVolume, t.priceChange,
              t.priceChangePercent⟩])
          ((mem_setAdd_iff known t.symbol sym).mpr (Or.inl hk))
        refine ⟨?_, this.2⟩
        rw [this.1, eventCount_append]
        simp [eventCount, hts]

theorem pollingScan_new_event (quote sym : String)
    (hq : symbolEndsWith sym quote = true) (ts : List Ticker24h) :
    ∀ (known : List String) (events : List ListingEvent), sym ∉ known →
      (∃ t ∈ ts, t.symbol = sym) →
      eventCount sym (pollingScan quote ts known events).2 = eventCount sym events + 1 ∧
      sym ∈ (pollingScan quote ts known events).1 := by
  induction ts with
  | nil => rintro known events _ ⟨t0, ht0, _⟩; exact absurd ht0 (List.not_mem_nil t0)
  | cons t ts ih =>
    rintro known events hn ⟨t0, ht0, hts0⟩
    unfold pollingScan
    by_cases he : symbolEndsWith t.symbol quote = false
    · rw [if_pos he]
      have hne : t.symbol ≠ sym := by
        intro h; rw [h, hq] at he; exact Bool.true_eq_false.mp he
      apply ih known events hn
      rcases List.mem_cons.mp ht0 with rfl | h0
      · exact absurd hts0 hne
      · exact ⟨t0, h0, hts0⟩
    · rw [if_neg he]
      by_cases hk : t.symbol ∈ known
      · rw [if_pos hk]
        have hne : t.symbol ≠ sym := fun h => hn (h ▸ hk)
        apply ih known events hn
        rcases List.mem_cons.mp ht0 with rfl | h0
        · exact absurd hts0 hne
        · exact ⟨t0, h0, hts0⟩
      · rw [if_neg hk]
        by_cases hts : t.symbol = sym
        · subst hts
          have hmem : t.symbol ∈ setAdd known t.symbol :=
            (mem_setAdd_iff _ _ _).mpr (Or.inr rfl)
          have := runPolling_known_scan quote t.symbol ts (setAdd known t.symbol)
            (events ++
              [⟨t.symbol, t.lastPrice, t.volume, t.quoteVolume, t.priceChange,
                t.priceChangePercent⟩]) hmem
          refine ⟨?_, this.2⟩
          rw [this.1, eventCount_append]
          simp [eventCount]
        · have hn' : sym ∉ setAdd known t.symbol := by
            rw [mem_setAdd_iff]
            rintro (h | h)
            · exact hn h
            · exact hts h.symm
          have h0 : ∃ t1 ∈ ts, t1.symbol = sym := by
            rcases List.mem_cons.mp ht0 with rfl | h1
            · exact absurd hts0 hts
            · exact ⟨t0, h1, hts0⟩
          have hrec := ih (setAdd known t.symbol)
            (events ++
              [⟨t.symbol, t.lastPrice, t.volume, t.quoteVolume, t.priceChange,
                t.priceChangePercent⟩]) hn' h0
          refine ⟨?_, hrec.2⟩
          rw [hrec.1, eventCount_append]
          simp [eventCount, hts]

theorem runPolling_known_seq (quote sym : String) (us : List (List Ticker24h)) :
    ∀ known : List String, sym ∈ known →
      eventCount sym (runPollingUpdates quote known us).2 = 0 ∧
      sym ∈ (runPollingUpdates quote known us).1 := by
  induction us with
  | nil => intro known hk; exact ⟨rfl, hk⟩
  | cons u us ih =>
    intro known hk
    have h1 := runPolling_known_scan quote sym u known [] hk
    have h2 := ih (checkForNewListings quote known u).1 h1.2
    constructor
    · simp only [runPollingUpdates, eventCount_append, h2.1]
      simpa [checkForNewListings, eventCount] using h1.1
    · simpa only [runPollingUpdates] using h2.2

/-! ### Claim C5 -/

/-- C5: on both the push path (`handleMiniTickerArray`) and the polling path
(`checkForNewListings`), any nonempty sequence of updates that each carry a
new quote-asset symbol produces exactly one `newListing` event for that
symbol, and the symbol ends up in the known-symbol set; concretely, with the
known set BTCUSDT and a snapshot containing BTCUSDT and NEWUSDT, exactly the
one event for NEWUSDT is emitted and the known set becomes BTCUSDT,
NEWUSDT. -/
theorem newListing_emitted_exactly_once (quote sym : String) (known : List String)
    (pushUpdates : List (List MiniTicker)) (pollUpdates : List (List Ticker24h))
    (hq : symbolEndsWith sym quote = true) (hn : sym ∉ known) :
    (pushUpdates ≠ [] → (∀ u ∈ pushUpdates, ∃ t ∈ u, t.s = sym) →
      eventCount sym (runMiniTickerUpdates quote known pushUpdates).2 = 1 ∧
      sym ∈ (runMiniTickerUpdates quote known pushUpdates).1) ∧
    (pollUpdates ≠ [] → (∀ u ∈ pollUpdates, ∃ t ∈ u, t.symbol = sym) →
      eventCount sym (runPollingUpdates quote known pollUpdates).2 = 1 ∧
      sym ∈ (runPollingUpdates quote known pollUpdates).1) ∧
    runMiniTickerUpdates "USDT" ["BTCUSDT"]
        [[⟨"BTCUSDT", 1, 1, 1, 1, 1⟩, ⟨"NEWUSDT", 2, 2, 2, 2, 2⟩]] =
      (["BTCUSDT", "NEWUSDT"], [⟨"NEWUSDT", 2, 2, 2, 2, 2⟩]) := by
  refine ⟨?_, ?_, by rfl⟩
  · intro hne hall
    rcases pushUpdates with _ | ⟨u, us⟩
    · exact absurd rfl hne
    · have h1 := handleMiniTicker_new quote sym known u hq hn
        (hall u (List.mem_cons_self u us))
      have h2 := runMiniTicker_known_seq quote sym hq us
        (handleMiniTickerArray quote known u).known h1.2
        (fun v hv => hall v (List.mem_cons_of_mem u hv))
      constructor
      · simp only [runMiniTickerUpdates, eventCount_append, h1.1, h2.1]
      · simpa only [runMiniTickerUpdates] using h2.2
  · intro hne hall
    rcases pollUpdates with _ | ⟨u, us⟩
    · exact absurd rfl hne
    · have h1 := pollingScan_new_event quote sym hq u known [] hn
        (hall u (List.mem_cons_self u us))
      have h2 := runPolling_known_seq quote sym us (checkForNewListings quote known u).1 h1.2
      constructor
      · simp only [runPollingUpdates, eventCount_append, h2.1]
        simpa [checkForNewListings, eventCount] using h1.1
      · simpa only [runPollingUpdates] using h2.2

/-- Closed instance of `newListing_emitted_exactly_once` on the concrete
BTCUSDT/NEWUSDT scenario, for both transports. -/
theorem newListing_emitted_exactly_once_witness :
    (eventCount "NEWUSDT" (runMiniTickerUpdates "USDT" ["BTCUSDT"]
        [[⟨"BTCUSDT", 1, 1, 1, 1, 1⟩, ⟨"NEWUSDT", 2, 2, 2, 2, 2⟩]]).2 = 1 ∧
      "NEWUSDT" ∈ (runMiniTickerUpdates "USDT" ["BTCUSDT"]
        [[⟨"BTCUSDT", 1, 1, 1, 1, 1⟩, ⟨"NEWUSDT", 2, 2, 2, 2, 2⟩]]).1) ∧
    (eventCount "NEWUSDT" (runPollingUpdates "USDT" ["BTCUSDT"]
        [[⟨"BTCUSDT", 1, 1, 1, 1, 1⟩, ⟨"NEWUSDT", 2, 2, 2, 2, 2⟩]]).2 = 1 ∧
      "NEWUSDT" ∈ (runPollingUpdates "USDT" ["BTCUSDT"]
        [[⟨"BTCUSDT", 1, 1, 1, 1, 1⟩, ⟨"NEWUSDT", 2, 2, 2, 2, 2⟩]]).1) :=
  ⟨(newListing_emitted_exactly_once "USDT" "NEWUSDT" ["BTCUSDT"]
      [[⟨"BTCUSDT", 1, 1, 1, 1, 1⟩, ⟨"NEWUSDT", 2, 2, 2, 2, 2⟩]]
      [[⟨"BTCUSDT", 1, 1, 1, 1, 1⟩, ⟨"NEWUSDT", 2, 2, 2, 2, 2⟩]]
      (by decide) (by decide)).1 (by decide)
      (by intro u hu; simp at hu; subst hu; exact ⟨⟨"NEWUSDT", 2, 2, 2, 2, 2⟩, by simp⟩),
    (newListing_emitted_exactly_once "USDT" "NEWUSDT" ["BTCUSDT"]
      [[⟨"BTCUSDT", 1, 1, 1, 1, 1⟩, ⟨"NEWUSDT", 2, 2, 2, 2, 2⟩]]
      [[⟨"BTCUSDT", 1, 1, 1, 1, 1⟩, ⟨"NEWUSDT", 2, 2, 2, 2, 2⟩]]
      (by decide) (by decide)).2.1 (by decide)
      (by intro u hu; simp at hu; subst hu; exact ⟨⟨"NEWUSDT", 2, 2, 2, 2, 2⟩, by simp⟩)⟩

/-! ## Entry path (src/services/trading/index.js, executeBuy) -/

/-- The two client environments produced by the client factory. -/
inductive TradingEnv where
  | testnet
  | mainnet
  deriving DecidableEq, Repr

/-- `environmentSettings[...].maxSimultaneousPositions`, the value
`updateEnvironmentSettings` assigns to `this.maxPositions`: 10 on testnet,
`config.trading.maxPositions` on mainnet.  `updateEnvironmentSettings` is
invoked only from `TradingService.switchEnvironment`, so until the first
environment switch `this.maxPositions` stays `undefined`. -/
def envMaxPositions (e : TradingEnv) (cfgMaxPositions : ℕ) : ℕ :=
  match e with
  | TradingEnv.testnet => 10
  | TradingEnv.mainnet => cfgMaxPositions

/-- The ceiling comparison `this.activePositions.size >= this.maxPositions`
at trading/index.js line 222.  `this.maxPositions` is assigned only by
`updateEnvironmentSettings`, which only `switchEnvironment` calls; in the
default startup path it is still `undefined` (modelled `none`), and a JS
`>=` comparison against `undefined` is always false, so the ceiling never
fires there.  After a switch it is `some (envMaxPositions ...)`. -/
def positionCeilingHit (maxPositions : Option ℕ) (count : ℕ) : Bool :=
  match maxPositions with
  | none => false
  | some m => decide (count ≥ m)

/-- `environmentSettings[...].allowRiskyOperations`: true on testnet, false
on mainnet. -/
def envAllowRiskyOperations : TradingEnv → Bool
  | TradingEnv.testnet => true
  | TradingEnv.mainnet => false

/-- Risk level produced by `assessTradeRisk`. -/
inductive RiskLevel where
  | low
  | medium
  | high
  deriving DecidableEq, Repr

/-- Listing payload fields read by `executeBuy`/`assessTradeRisk`. -/
structure ListingData where
  symbol : String
  price : ℚ
  quoteVolume : ℚ
  priceChangePercent : ℚ
  timestamp : ℕ
  deriving DecidableEq, Repr

/-- `TradingService.assessTradeRisk` (trading/index.js lines 357-385): the
risk level variable is assigned sequentially — low volume sets medium, high
volatility sets high, and a stale listing (older than 5 minutes) then
overwrites the level with medium. -/
def assessTradeRisk (minVolume24h : ℚ) (now : ℕ) (ld : ListingData) : RiskLevel :=
  let r1 := if ld.quoteVolume < minVolume24h * 2 then RiskLevel.medium else RiskLevel.low
  let r2 := if |ld.priceChangePercent| > 50 then RiskLevel.high else r1
  if now - ld.timestamp > 300000 then RiskLevel.medium else r2

/-- `TradingService.calculateOrderSizeForEnvironment` (lines 336-352): the
risk-managed size, doubled but capped at half the balance on testnet, and
capped at 80 percent of the configured maximum on mainnet. -/
def calculateOrderSizeForEnvironment (cfg : RiskConfig) (env : TradingEnv)
    (availableBalance : ℚ) (activePositionsCount : ℕ) : ℚ :=
  let baseSize := calculateOrderSize cfg availableBalance activePositionsCount
  match env with
  | TradingEnv.testnet => min (baseSize * 2) (availableBalance * (1/2))
  | TradingEnv.mainnet => min baseSize (cfg.maxOrderSize * (8/10))

/-- `listingData.price || await getCurrentPrice(symbol)`: a zero (or absent)
listing price falls back to the fetched market price. -/
def resolveEntryPrice (ld : ListingData) (fetchedPrice : ℚ) : ℚ :=
  if ld.price ≠ 0 then ld.price else fetchedPrice

/-- Outcome of `OrderManager.placeMarketBuyOrder` as seen by `executeBuy`:
`placed` corresponds to `success: true` (the exchange call resolved, with
whatever `executedQty` the exchange reported — possibly zero); `rejected`
corresponds to the gateway's caught-error result `success: false`, which
`executeBuy` turns into a thrown error. -/
inductive MarketBuyOutcome where
  | placed (orderId : ℕ) (executedQty avgPrice : ℚ)
  | rejected (err : String)
  deriving DecidableEq, Repr

/-- Oracle inputs of one `executeBuy` run: environment and configuration,
the current `this.maxPositions` value (`none` until the first
`switchEnvironment`), the open-position symbols, the balance read, the
`getSymbolInfo` result (`none` models a falsy result, which throws), the
fetched market price, and the market-order outcome. -/
structure BuyEnv where
  env : TradingEnv
  cfg : RiskConfig
  maxPositions : Option ℕ
  minVolume24h : ℚ
  now : ℕ
  activePositions : List String
  availableBalance : ℚ
  symbolInfo : Option (List SymbolFilter)
  fetchedPrice : ℚ
  orderOutcome : MarketBuyOutcome
  deriving DecidableEq, Repr

/-- The position record built and persisted by `executeBuy` (fields relevant
to the claims; `quantity` is the order's `executedQty` and `entryPrice` its
`avgPrice`). -/
structure Position where
  symbol : String
  orderId : ℕ
  quantity : ℚ
  entryPrice : ℚ
  status : String
  side : String
  deriving DecidableEq, Repr

/-- Observable effects of one `executeBuy` run: the returned `success` flag
and error message, the position passed to `database.savePosition` (if any),
and whether a BUY_ORDER_ERROR record was passed to `database.saveError`
(only the catch branch does that). -/
structure BuyEffects where
  success : Bool
  errMsg : Option String
  savedPosition : Option Position
  savedError : Bool
  deriving DecidableEq, Repr

/-- `TradingService.executeBuy` (trading/index.js lines 205-331).  Early
returns (existing position, the position-ceiling comparison firing — which
never happens while `this.maxPositions` is still undefined, mainnet
high-risk block, insufficient sizing) produce an unsuccessful result
without touching the database; thrown errors (falsy symbol info,
non-positive computed quantity, a failed market order) are caught, recorded
via `saveError`, and produce an unsuccessful result; only a successful
market order leads to `savePosition` and a successful result. -/
def executeBuy (e : BuyEnv) (ld : ListingData) : BuyEffects :=
  if ld.symbol ∈ e.activePositions then
    ⟨false, some "Position already exists", none, false⟩
  else if positionCeilingHit e.maxPositions e.activePositions.length = true then
    ⟨false, some "Max positions limit reached", none, false⟩
  else if e.env = TradingEnv.mainnet ∧ envAllowRiskyOperations e.env = false ∧
      assessTradeRisk e.minVolume24h e.now ld = RiskLevel.high then
    ⟨false, some "High risk trade blocked on mainnet", none, false⟩
  else
    match e.symbolInfo with
    | none => ⟨false, some "Symbol info not found", none, true⟩
    | some filters =>
      if calculateOrderSizeForEnvironment e.cfg e.env e.availableBalance
          e.activePositions.length < e.cfg.baseOrderSize then
        ⟨false, some "Insufficient balance", none, false⟩
      else if calculateQuantity
          (calculateOrderSizeForEnvironment e.cfg e.env e.availableBalance
            e.activePositions.length)
          (resolveEntryPrice ld e.fetchedPrice) filters ≤ 0 then
        ⟨false, some "Invalid quantity calculated", none, true⟩
      else
        match e.orderOutcome with
        | MarketBuyOutcome.rejected err => ⟨false, some err, none, true⟩
        | MarketBuyOutcome.placed oid exq avg =>
          ⟨true, none, some ⟨ld.symbol, oid, exq, avg, "OPEN", "BUY"⟩, false⟩

/-! ### Claim C6 -/

/-- C6 counterexample, two scenarios.  First: on testnet (ceiling set to 10
by a prior environment switch), balance 2000, a market order whose exchange
call resolves with executed quantity 0 — `executeBuy` persists a position
with quantity 0 and returns success, refuting the filled-quantity-positive
conjunct (the code checks only `orderResult.success`, never `executedQty`).
Second: in the default run `this.maxPositions` is still undefined, so with
12 open positions — above both the testnet value 10 and the mainnet default
5 — a thirteenth position is still persisted, refuting the
count-below-the-environment-ceiling conjunct. -/
theorem executeBuy_persists_zero_fill_case :
    ((executeBuy
        ⟨TradingEnv.testnet, defaultRiskConfig, some 10, 1000000, 0, [], 2000, some [], 1,
          MarketBuyOutcome.placed 7 0 1⟩
        ⟨"NEWUSDT", 1, 5000000, 0, 0⟩).savedPosition =
      some ⟨"NEWUSDT", 7, 0, 1, "OPEN", "BUY"⟩ ∧
    (executeBuy
        ⟨TradingEnv.testnet, defaultRiskConfig, some 10, 1000000, 0, [], 2000, some [], 1,
          MarketBuyOutcome.placed 7 0 1⟩
        ⟨"NEWUSDT", 1, 5000000, 0, 0⟩).success = true) ∧
    ((executeBuy
        ⟨TradingEnv.testnet, defaultRiskConfig, none, 1000000, 0,
          ["P01USDT", "P02USDT", "P03USDT", "P04USDT", "P05USDT", "P06USDT", "P07USDT",
            "P08USDT", "P09USDT", "P10USDT", "P11USDT", "P12USDT"], 10000, some [], 1,
          MarketBuyOutcome.placed 8 5 1⟩
        ⟨"NEWUSDT", 1, 5000000, 0, 0⟩).savedPosition =
      some ⟨"NEWUSDT", 8, 5, 1, "OPEN", "BUY"⟩ ∧
    (executeBuy
        ⟨TradingEnv.testnet, defaultRiskConfig, none, 1000000, 0,
          ["P01USDT", "P02USDT", "P03USDT", "P04USDT", "P05USDT", "P06USDT", "P07USDT",
            "P08USDT", "P09USDT", "P10USDT", "P11USDT", "P12USDT"], 10000, some [], 1,
          MarketBuyOutcome.placed 8 5 1⟩
        ⟨"NEWUSDT", 1, 5000000, 0, 0⟩).success = true ∧
    envMaxPositions TradingEnv.testnet 5 < 12 ∧ envMaxPositions TradingEnv.mainnet 5 < 12) := by
  have hmem : ("NEWUSDT" : String) ∉
      ["P01USDT", "P02USDT", "P03USDT", "P04USDT", "P05USDT", "P06USDT", "P07USDT",
        "P08USDT", "P09USDT", "P10USDT", "P11USDT", "P12USDT"] := by decide
  refine ⟨⟨?_, ?_⟩, ?_, ?_, by decide, by decide⟩ <;>
    norm_num [executeBuy, positionCeilingHit, envAllowRiskyOperations,
      calculateOrderSizeForEnvironment, calculateOrderSize, defaultRiskConfig,
      calculateQuantity, findLotSize, findMinNotional, resolveEntryPrice, hmem]

/-- C6 (amended): `executeBuy` persists a position only when every live
entry precondition holds — no open position for the symbol, the
position-ceiling comparison not firing (it compares the count against
`this.maxPositions`, which is undefined until the first `switchEnvironment`
and therefore never blocks in the default run; once set, the count must be
below it), the mainnet high-risk gate not tripped, the sized order at least
the base order size, a positive computed quantity, and a market order whose
exchange call succeeded — but the persisted quantity is the order's
`executedQty`, which is not required to be positive; and whenever a
`saveError` record is written (an entry-path exception was caught) the
result is unsuccessful and no position is persisted. -/
theorem executeBuy_persist_conditions (e : BuyEnv) (ld : ListingData) :
    (∀ p : Position, (executeBuy e ld).savedPosition = some p →
      ld.symbol ∉ e.activePositions ∧
      positionCeilingHit e.maxPositions e.activePositions.length = false ∧
      (∀ m, e.maxPositions = some m → e.activePositions.length < m) ∧
      ¬(e.env = TradingEnv.mainnet ∧ envAllowRiskyOperations e.env = false ∧
          assessTradeRisk e.minVolume24h e.now ld = RiskLevel.high) ∧
      e.cfg.baseOrderSize ≤
        calculateOrderSizeForEnvironment e.cfg e.env e.availableBalance
          e.activePositions.length ∧
      (∃ filters, e.symbolInfo = some filters ∧
        0 < calculateQuantity
          (calculateOrderSizeForEnvironment e.cfg e.env e.availableBalance
            e.activePositions.length)
          (resolveEntryPrice ld e.fetchedPrice) filters) ∧
      (∃ orderId avgPrice,
        e.orderOutcome = MarketBuyOutcome.placed orderId p.quantity avgPrice ∧
        p.entryPrice = avgPrice) ∧
      (executeBuy e ld).success = true ∧ (executeBuy e ld).savedError = false) ∧
    ((executeBuy e ld).savedError = true →
      (executeBuy e ld).success = false ∧ (executeBuy e ld).savedPosition = none) := by
  unfold executeBuy
  by_cases h1 : ld.symbol ∈ e.activePositions
  · rw [if_pos h1]
    simp
  · rw [if_neg h1]
    by_cases h2 : positionCeilingHit e.maxPositions e.activePositions.length = true
    · rw [if_pos h2]
      simp
    · rw [if_neg h2]
      by_cases h3 : e.env = TradingEnv.mainnet ∧ envAllowRiskyOperations e.env = false ∧
          assessTradeRisk e.minVolume24h e.now ld = RiskLevel.high
      · rw [if_pos h3]
        simp
      · rw [if_neg h3]
        cases hsi : e.symbolInfo with
        | none =>
          dsimp only
          simp
        | some filters =>
          dsimp only
          by_cases h4 : calculateOrderSizeForEnvironment e.cfg e.env e.availableBalance
              e.activePositions.length < e.cfg.baseOrderSize
          · rw [if_pos h4]
            simp
          · rw [if_neg h4]
            by_cases h5 : calculateQuantity
                (calculateOrderSizeForEnvironment e.cfg e.env e.availableBalance
                  e.activePositions.length)
                (resolveEntryPrice ld e.fetchedPrice) filters ≤ 0
            · rw [if_pos h5]
              simp
            · rw [if_neg h5]
              cases ho : e.orderOutcome with
              | rejected err =>
                dsimp only
                simp
              | placed oid exq avg =>
                dsimp only
                have h2f : positionCeilingHit e.maxPositions e.activePositions.length = false := by
                  simpa using h2
                have h2m : ∀ m, e.maxPositions = some m → e.activePositions.length < m := by
                  intro m hm
                  rw [hm] at h2f
                  simpa [positionCeilingHit, not_le] using h2f
                constructor
                · intro p hp
                  have hp' : p = ⟨ld.symbol, oid, exq, avg, "OPEN", "BUY"⟩ := by
                    simpa using hp.symm
                  subst hp'
                  exact ⟨h1, h2f, h2m, h3, le_of_not_lt h4,
                    ⟨filters, rfl, lt_of_not_le h5⟩, ⟨oid, avg, rfl, rfl⟩, rfl, rfl⟩
                · intro h
                  simp at h

/-- Closed instance of `executeBuy_persist_conditions`: a run whose symbol
info lookup fails records an error, returns an unsuccessful result and
persists nothing. -/
theorem executeBuy_persist_conditions_witness :
    (executeBuy
        ⟨TradingEnv.testnet, defaultRiskConfig, some 10, 1000000, 0, [], 2000, none, 1,
          MarketBuyOutcome.placed 7 5 1⟩
        ⟨"AAAUSDT", 1, 5000000, 0, 0⟩).success = false ∧
    (executeBuy
        ⟨TradingEnv.testnet, defaultRiskConfig, some 10, 1000000, 0, [], 2000, none, 1,
          MarketBuyOutcome.placed 7 5 1⟩
        ⟨"AAAUSDT", 1, 5000000, 0, 0⟩).savedPosition = none :=
  (executeBuy_persist_conditions
      ⟨TradingEnv.testnet, defaultRiskConfig, some 10, 1000000, 0, [], 2000, none, 1,
        MarketBuyOutcome.placed 7 5 1⟩
      ⟨"AAAUSDT", 1, 5000000, 0, 0⟩).2 (by rfl)
